import Mathlib

/-!
Shallow embedding of the PhronesisFlask Content & Progress Engine.

The definitions below are translated from the repository sources:
  * `src/app.py`                -- main Flask app (loader, progress, grading, peer review)
  * `src/app_perspectives_fix.py` -- alternative blueprint with a second loader and grading flow
  * `src/models.py`             -- SQLAlchemy models (uniqueness constraints)

Modelling conventions:
  * JSON perspective documents are duck-typed dicts in the source; they are
    embedded as structures whose fields are `Option`-valued exactly where the
    source reads them with `.get` (a `none` field = key absent).
  * The SQLAlchemy stores are embedded as lists kept in insertion (primary-key)
    order, which is the order SQLite returns rows of an unordered query in.
  * Python integer arithmetic is embedded over `Nat`/`Int` exactly.
    `app.py`'s percentage expression `int((k/n)*100)` runs in IEEE-754
    binary64 floating point and is embedded as such (two correct roundings
    to 53 significant bits, then truncation); the fix's `round(100*m/n)`
    rounds a single binary64 quotient and is embedded as the
    round-half-to-even of the exact fraction, with which it agrees for all
    realistic inputs (see `compute_progress_fix`).
  * Fallible Python code (uncaught `IndexError`/`KeyError`/JSON decode errors,
    database constraint violations) is embedded with `Except`.
-/

/-- Error values standing for the uncaught Python exceptions the embedded code
can raise. -/
inductive PyError
  | indexError
  | keyError
  | jsonDecodeError
deriving DecidableEq, Repr

/-- Storage-layer failure: violation of a SQLAlchemy `UniqueConstraint`
(`models.py`), raised on `db.session.commit()`. -/
inductive DBError
  | uniqueViolation
deriving DecidableEq, Repr

/-- A quick-check question as stored inside a lesson of a perspective JSON
document (`quick_checks` entries).  Every field is optional because the source
reads them with `dict.get`. -/
structure QuickCheck where
  question : Option String
  choices : Option (List String)
  answer_index : Option Int
  feedback : Option (List String)
deriving DecidableEq, Repr

/-- A mini-game as stored inside a lesson JSON document.  Only the fields the
grading code reads are embedded (`type`, `correct_option`, `explanation`). -/
structure Minigame where
  type : Option String
  correct_option : Option String
  explanation : Option String
deriving DecidableEq, Repr

/-- A lesson entry of a perspective JSON document. -/
structure Lesson where
  id : String
  quick_checks : Option (List QuickCheck)
  minigame : Option Minigame
deriving DecidableEq, Repr

/-- The `order` field of a perspective document: absent, an `int()`-convertible
value with integer value `n`, or a present value on which Python `int()`
raises. -/
inductive OrderField
  | absent
  | num (n : Int)
  | nonNumeric
deriving DecidableEq, Repr

/-- A raw perspective JSON document, as `json.load` returns it.  Fields are
optional where the source reads them with `dict.get` / `dict.setdefault`. -/
structure RawDoc where
  slug : Option String
  title : Option String
  summary : Option String
  order : OrderField
  lessons : Option (List Lesson)
deriving DecidableEq, Repr

/-- One file of the `content/perspectives` directory: its filename stem
(`f.stem`, the name without the `.json` suffix) together with the result of
parsing it (`none` = malformed JSON, `json.load` raises). -/
abbrev ContentFile := String × Option RawDoc

/-- A perspective document after `_load_all_perspectives`
(`app_perspectives_fix.py` lines 27-35) has applied its "minimal schema
guardrails": all defaulted fields are present. -/
structure Perspective where
  slug : String
  title : String
  summary : String
  order : Int
  lessons : List Lesson
deriving DecidableEq, Repr

/-! ### Python string primitives

Python compares strings lexicographically by code point, and `str.title()`
upper-cases the first cased character of every word.  Strings are handled
through their character lists so that all comparisons reduce inside the
kernel. -/

/-- Python string `<` (lexicographic by code point) on character lists. -/
def strLtb : List Char → List Char → Bool
  | [], [] => false
  | [], _ :: _ => true
  | _ :: _, [] => false
  | a :: as, b :: bs =>
    if a.toNat < b.toNat then true
    else if b.toNat < a.toNat then false
    else strLtb as bs

/-- Python string `<=`: `a <= b` iff not `b < a`. -/
def pyStrLe (a b : String) : Bool := !(strLtb b.data a.data)

/-- Python `str.title()` over a character list: a cased (alphabetic) character
is upper-cased when it starts a word and lower-cased otherwise. -/
def pyTitleAux : List Char → Bool → List Char
  | [], _ => []
  | c :: cs, prevAlpha =>
    if c.isAlpha then
      (if prevAlpha then c.toLower else c.toUpper) :: pyTitleAux cs true
    else
      c :: pyTitleAux cs false

/-- Python `str.title()`. -/
def pyTitle (s : String) : String := String.mk (pyTitleAux s.data false)

/-- Python `stem.replace("-", " ")` for the single-character pattern used by
the source. -/
def dashToSpace (s : String) : String :=
  String.mk (s.data.map (fun c => if c = '-' then ' ' else c))

/-! ### Python list.sort

`list.sort(key=...)` is a stable comparison sort; it is embedded as a stable
insertion sort parameterised by the boolean `<=` on elements induced by the
sort key. -/

/-- Insert `x` after every element `y` of an already sorted list with
`le y x`; used left-to-right this realises a stable sort. -/
def insertS {α : Type} (le : α → α → Bool) (x : α) : List α → List α
  | [] => [x]
  | y :: ys => if le y x then y :: insertS le x ys else x :: y :: ys

/-- Stable sort of `l` by the comparison `le`, embedding Python `list.sort`. -/
def sortBy {α : Type} (le : α → α → Bool) (l : List α) : List α :=
  l.foldl (fun acc x => insertS le x acc) []

theorem mem_insertS {α : Type} (le : α → α → Bool) (x : α) (l : List α) (a : α) :
    a ∈ insertS le x l ↔ a = x ∨ a ∈ l := by
  induction l with
  | nil => simp [insertS]
  | cons y ys ih =>
    simp only [insertS]
    by_cases h : le y x = true
    · simp only [h, if_true, List.mem_cons, ih]
      tauto
    · simp only [h, if_false, Bool.false_eq_true, List.mem_cons]

theorem insertS_perm {α : Type} (le : α → α → Bool) (x : α) (l : List α) :
    (insertS le x l).Perm (x :: l) := by
  induction l with
  | nil => simp [insertS]
  | cons y ys ih =>
    by_cases h : le y x = true
    · simp only [insertS, h, if_pos]
      exact (ih.cons y).trans (List.Perm.swap x y ys)
    · simp [insertS, h]

theorem sortBy_perm_aux {α : Type} (le : α → α → Bool) :
    ∀ (l acc : List α), (l.foldl (fun acc x => insertS le x acc) acc).Perm (acc ++ l) := by
  intro l
  induction l with
  | nil => intro acc; simp
  | cons x xs ih =>
    intro acc
    refine (ih (insertS le x acc)).trans ?_
    exact ((insertS_perm le x acc).append_right xs).trans List.perm_middle.symm

/-- Sorting permutes: the sorted list has exactly the input's elements. -/
theorem sortBy_perm {α : Type} (le : α → α → Bool) (l : List α) :
    (sortBy le l).Perm l := by
  simpa using sortBy_perm_aux le l []

theorem pairwise_insertS {α : Type} (le : α → α → Bool)
    (total : ∀ a b, le a b || le b a)
    (trans : ∀ a b c, le a b → le b c → le a c)
    (x : α) (l : List α) (h : l.Pairwise (fun a b => le a b = true)) :
    (insertS le x l).Pairwise (fun a b => le a b = true) := by
  induction l with
  | nil => simp [insertS]
  | cons y ys ih =>
    rcases List.pairwise_cons.mp h with ⟨hy, hys⟩
    by_cases hle : le y x = true
    · simp only [insertS, hle, if_pos]
      refine List.pairwise_cons.mpr ⟨?_, ih hys⟩
      intro z hz
      rcases (mem_insertS le x ys z).mp hz with rfl | hz
      · exact hle
      · exact hy z hz
    · have hxy : le x y = true := by
        have := total y x
        simp only [hle, Bool.false_or] at this
        exact this
      simp only [insertS, hle, if_neg, Bool.not_eq_true]
      refine List.pairwise_cons.mpr ⟨?_, h⟩
      intro z hz
      rcases List.mem_cons.mp hz with rfl | hz
      · exact hxy
      · exact trans x y z hxy (hy z hz)

theorem sortBy_pairwise_aux {α : Type} (le : α → α → Bool)
    (total : ∀ a b, le a b || le b a)
    (trans : ∀ a b c, le a b → le b c → le a c) :
    ∀ (l acc : List α), acc.Pairwise (fun a b => le a b = true) →
      (l.foldl (fun acc x => insertS le x acc) acc).Pairwise (fun a b => le a b = true) := by
  intro l
  induction l with
  | nil => intro acc h; simpa using h
  | cons x xs ih =>
    intro acc h
    exact ih (insertS le x acc) (pairwise_insertS le total trans x acc h)

/-- Sorting sorts: for a total, transitive comparison the result is pairwise
ordered. -/
theorem sortBy_pairwise {α : Type} (le : α → α → Bool)
    (total : ∀ a b, le a b || le b a)
    (trans : ∀ a b c, le a b → le b c → le a c) (l : List α) :
    (sortBy le l).Pairwise (fun a b => le a b = true) :=
  sortBy_pairwise_aux le total trans l [] (by simp)

theorem strLtb_nil_iff (l : List Char) : strLtb [] l = false ↔ l = [] := by
  cases l <;> simp [strLtb]

theorem strLtb_asymm : ∀ a b : List Char, strLtb a b = true → strLtb b a = false := by
  intro a
  induction a with
  | nil =>
    intro b h
    cases b with
    | nil => rfl
    | cons y ys => rfl
  | cons x xs ih =>
    intro b h
    cases b with
    | nil => simp [strLtb] at h
    | cons y ys =>
      simp only [strLtb] at h ⊢
      by_cases hxy : x.toNat < y.toNat
      · have hyx : ¬ y.toNat < x.toNat := by omega
        simp [hxy, hyx]
      · by_cases hyx : y.toNat < x.toNat
        · simp [hxy, hyx] at h
        · simp only [hxy, hyx, if_false] at h ⊢
          exact ih ys h

theorem strLtb_false_trans : ∀ a b c : List Char,
    strLtb a b = false → strLtb b c = false → strLtb a c = false := by
  intro a
  induction a with
  | nil =>
    intro b c h1 h2
    have hb := (strLtb_nil_iff b).mp h1
    subst hb
    have hc := (strLtb_nil_iff c).mp h2
    subst hc
    rfl
  | cons x xs ih =>
    intro b c h1 h2
    cases b with
    | nil =>
      cases c with
      | nil => rfl
      | cons z zs => simp [strLtb] at h2
    | cons y ys =>
      cases c with
      | nil => rfl
      | cons z zs =>
        simp only [strLtb] at h1 h2 ⊢
        by_cases hxy : x.toNat < y.toNat
        · simp [hxy] at h1
        · by_cases hyz : y.toNat < z.toNat
          · simp [hyz] at h2
          · have hxz : ¬ x.toNat < z.toNat := by omega
            simp only [hxy, hyz, if_false] at h1 h2
            simp only [hxz, if_false]
            by_cases hyx : y.toNat < x.toNat
            · have hzx : z.toNat < x.toNat := by omega
              simp [hzx]
            · by_cases hzy : z.toNat < y.toNat
              · have hzx : z.toNat < x.toNat := by omega
                simp [hzx]
              · simp only [hyx, hzy, if_false] at h1 h2
                by_cases hzx : z.toNat < x.toNat
                · simp [hzx]
                · simp only [hzx, if_false]
                  exact ih ys zs h1 h2

theorem pyStrLe_total (a b : String) : (pyStrLe a b || pyStrLe b a) = true := by
  unfold pyStrLe
  cases h : strLtb b.data a.data with
  | false => simp
  | true => simp [strLtb_asymm _ _ h]

theorem pyStrLe_trans (a b c : String) :
    pyStrLe a b = true → pyStrLe b c = true → pyStrLe a c = true := by
  unfold pyStrLe
  simp only [Bool.not_eq_true']
  intro h1 h2
  exact strLtb_false_trans c.data b.data a.data h2 h1

/-! ### Content Store, `app.py` flavour (`load_perspectives`,
`get_perspective_by_slug`, lines 46-73) -/

/-- Sort key used by `load_perspectives` (`app.py` line 64):
`x.get('order', 999)` — the raw order value, defaulting to `999` when the key
is absent.  A present non-`int` order value would be used as-is by Python and
make the mixed-type sort raise `TypeError`; that case is given the same key
only to keep the function total, and every theorem about `load_perspectives`
below assumes no document carries a non-numeric order. -/
def appSortKey (d : RawDoc) : Int :=
  match d.order with
  | .num n => n
  | .absent => 999
  | .nonNumeric => 999

/-- Comparison induced by `appSortKey`. -/
def appLe (a b : RawDoc) : Bool := decide (appSortKey a ≤ appSortKey b)

/-- Embedding of `load_perspectives` (`app.py` lines 46-65): parse every
`*.json` file, skipping (with a logged error) each file whose parse raises,
then sort in place by the raw `order` value with default `999`.  No field of
any document is defaulted or otherwise modified. -/
def load_perspectives (files : List ContentFile) : List RawDoc :=
  sortBy appLe (files.filterMap Prod.snd)

/-- Scan loop of `get_perspective_by_slug` (`app.py` lines 70-73):
`perspective['slug'] == slug` raises `KeyError` on a document with no `slug`
key. -/
def scanBySlugApp : List RawDoc → String → Except PyError (Option RawDoc)
  | [], _ => .ok none
  | d :: ds, slug =>
    match d.slug with
    | none => .error .keyError
    | some s => if s = slug then .ok (some d) else scanBySlugApp ds slug

/-- Embedding of `get_perspective_by_slug` (`app.py` lines 67-73): a linear
scan of `load_perspectives()` for a matching `slug` field. -/
def get_perspective_by_slug (files : List ContentFile) (slug : String) :
    Except PyError (Option RawDoc) :=
  scanBySlugApp (load_perspectives files) slug

/-! ### Content Store, `app_perspectives_fix.py` flavour
(`_load_all_perspectives`, `_load_perspective`, lines 18-53) -/

/-- Embedding of `data["order"] = int(data.get("order", 9999))` wrapped in
`try/except` (`app_perspectives_fix.py` lines 31-34): an absent or
non-`int()`-convertible order becomes `9999`. -/
def orderValue : OrderField → Int
  | .num n => n
  | .absent => 9999
  | .nonNumeric => 9999

/-- Default title `f.stem.replace("-", " ").title()`
(`app_perspectives_fix.py` line 29). -/
def defaultTitle (stem : String) : String := pyTitle (dashToSpace stem)

/-- The "minimal schema guardrails" of `_load_all_perspectives`
(`app_perspectives_fix.py` lines 28-35): `slug`/`title` default from the
filename stem, `summary` to the empty string, `order` to an `Int` (9999 when
absent or non-numeric), `lessons` to the empty list. -/
def normalizeDoc (stem : String) (d : RawDoc) : Perspective :=
  { slug := d.slug.getD stem
    title := d.title.getD (defaultTitle stem)
    summary := d.summary.getD ""
    order := orderValue d.order
    lessons := d.lessons.getD [] }

/-- Sort comparison of `_load_all_perspectives` (`app_perspectives_fix.py`
line 41): ascending by the Python tuple `(order, title)`. -/
def fixKeyLe (a b : Perspective) : Bool :=
  decide (a.order < b.order) || (decide (a.order = b.order) && pyStrLe a.title b.title)

/-- Embedding of `_load_all_perspectives` (`app_perspectives_fix.py` lines
18-42): parse every file, skipping malformed ones, apply the schema
guardrails, and sort by `(order, title)`. -/
def load_all_perspectives_fix (files : List ContentFile) : List Perspective :=
  sortBy fixKeyLe (files.filterMap (fun f => f.2.map (normalizeDoc f.1)))

/-- Result of `_load_perspective`: the fast path returns the raw parsed
document, the fallback scan returns a document normalized by
`_load_all_perspectives`. -/
inductive LoadedDoc
  | raw (d : RawDoc)
  | normalized (p : Perspective)
deriving DecidableEq, Repr

/-- Embedding of `_load_perspective` (`app_perspectives_fix.py` lines 44-53):
if a file named `<slug>.json` exists it is parsed and returned raw (a parse
failure raises, there is no `try` here); otherwise the normalized catalog is
scanned for a matching declared `slug`. -/
def load_perspective_fix (files : List ContentFile) (slug : String) :
    Except PyError (Option LoadedDoc) :=
  match files.find? (fun f => f.1 == slug) with
  | some (_, some d) => .ok (some (.raw d))
  | some (_, none) => .error .jsonDecodeError
  | none =>
    .ok (((load_all_perspectives_fix files).find? (fun p => p.slug == slug)).map .normalized)

theorem appLe_total (a b : RawDoc) : (appLe a b || appLe b a) = true := by
  simp only [appLe, Bool.or_eq_true, decide_eq_true_eq]
  omega

theorem appLe_trans (a b c : RawDoc) : appLe a b → appLe b c → appLe a c := by
  simp only [appLe, decide_eq_true_eq]
  omega

theorem fixKeyLe_total (a b : Perspective) : (fixKeyLe a b || fixKeyLe b a) = true := by
  simp only [fixKeyLe, Bool.or_eq_true, Bool.and_eq_true, decide_eq_true_eq]
  rcases lt_trichotomy a.order b.order with h | h | h
  · tauto
  · have := pyStrLe_total a.title b.title
    simp only [Bool.or_eq_true] at this
    rcases this with h2 | h2
    · exact Or.inl (Or.inr ⟨h, h2⟩)
    · exact Or.inr (Or.inr ⟨h.symm, h2⟩)
  · tauto

theorem fixKeyLe_trans (a b c : Perspective) :
    fixKeyLe a b → fixKeyLe b c → fixKeyLe a c := by
  simp only [fixKeyLe, Bool.or_eq_true, Bool.and_eq_true, decide_eq_true_eq]
  rintro (h1 | ⟨h1, h1t⟩) (h2 | ⟨h2, h2t⟩)
  · exact Or.inl (h1.trans h2)
  · exact Or.inl (h2 ▸ h1)
  · exact Or.inl (h1 ▸ h2)
  · exact Or.inr ⟨h1.trans h2, pyStrLe_trans _ _ _ h1t h2t⟩

/-! ### Progress Tracker (`models.py` `Progress`, `app.py` lines 75-115 and
269-309, `app_perspectives_fix.py` lines 61-79 and 137-160) -/

/-- `Progress.status` (`models.py` line 23). -/
inductive ProgressStatus
  | not_started
  | started
  | completed
deriving DecidableEq, Repr

/-- One `Progress` row (`models.py` lines 18-29). -/
structure ProgressRow where
  user_id : Nat
  perspective_slug : String
  lesson_id : String
  status : ProgressStatus
  score : Nat
deriving DecidableEq, Repr

/-- One `Event` row (`models.py` lines 55-62); only the fields the claims
inspect are embedded. -/
structure EventRow where
  user_id : Nat
  type : String
  perspective_slug : Option String
  lesson_id : Option String
deriving DecidableEq, Repr

/-- The persisted state the Progress Tracker touches: the `Progress` table and
the append-only `Event` table, both in insertion order. -/
structure EngineState where
  rows : List ProgressRow
  events : List EventRow
deriving DecidableEq, Repr

/-- Filter of `Progress.query.filter_by(user_id=..., perspective_slug=...,
lesson_id=...)`. -/
def rowKeyMatches (u : Nat) (slug lid : String) (r : ProgressRow) : Bool :=
  r.user_id == u && (r.perspective_slug == slug && r.lesson_id == lid)

/-- Embedding of `log_event` (`app.py` lines 104-115): append one `Event`
row. -/
def log_event (s : EngineState) (u : Nat) (t : String)
    (slug lid : Option String) : EngineState :=
  { s with events := s.events ++ [⟨u, t, slug, lid⟩] }

/-- Embedding of the get-or-create block of `lesson_detail` (`app.py` lines
269-289): return the existing `Progress` row for `(user, slug, lesson)`, or
create one with `status='started', score=0` and log a `lesson_started`
event. -/
def getOrCreate_app (s : EngineState) (u : Nat) (slug lid : String) :
    ProgressRow × EngineState :=
  match s.rows.find? (rowKeyMatches u slug lid) with
  | some r => (r, s)
  | none =>
    let r : ProgressRow := ⟨u, slug, lid, .started, 0⟩
    (r, log_event { s with rows := s.rows ++ [r] } u "lesson_started" (some slug) (some lid))

/-- Embedding of the "Ensure a Progress row exists" block of the fix's
`lesson` view (`app_perspectives_fix.py` lines 137-142): same get-or-create,
but no event is logged at creation. -/
def ensureRow_fix (s : EngineState) (u : Nat) (slug lid : String) :
    ProgressRow × EngineState :=
  match s.rows.find? (rowKeyMatches u slug lid) with
  | some r => (r, s)
  | none =>
    let r : ProgressRow := ⟨u, slug, lid, .started, 0⟩
    (r, { s with rows := s.rows ++ [r] })

/-- Embedding of a GET visit to the fix's `lesson` view
(`app_perspectives_fix.py` lines 137-142 and 182): ensure the row exists,
then unconditionally log a `lesson_started` event (line 182 runs on every GET
request, created row or not). -/
def visit_fix (s : EngineState) (u : Nat) (slug lid : String) : EngineState :=
  log_event (ensureRow_fix s u slug lid).2 u "lesson_started" (some slug) (some lid)

/-- Number of `lesson_started` events recorded for `(user, lesson)`. -/
def countStarted (s : EngineState) (u : Nat) (lid : String) : Nat :=
  s.events.countP (fun e => e.user_id == u && (e.type == "lesson_started" && e.lesson_id == some lid))

/-- Rounding of the fraction `a / b` (with `b > 0`) to the nearest integer
with ties to even: the rounding mode of Python `round` and of IEEE-754
binary64 arithmetic. -/
def pyRound (a b : Nat) : Nat :=
  if 2 * (a % b) < b then a / b
  else if b < 2 * (a % b) then a / b + 1
  else if (a / b) % 2 = 0 then a / b else a / b + 1

/-- Fuel-driven `floor (log2 n)` (0 for `n = 0`); the fuel argument only makes
the recursion structural. -/
def log2Aux : Nat → Nat → Nat
  | _, 0 => 0
  | n, fuel + 1 => if n ≤ 1 then 0 else log2Aux (n / 2) fuel + 1

/-- `floor (log2 n)` (0 for `n = 0`). -/
def natLog2 (n : Nat) : Nat := log2Aux n n

/-- `floor (log2 (k / N))` for `k, N > 0`: the binade exponent `e` with
`2^e <= k/N < 2^(e+1)`, obtained from the bit lengths of `k` and `N` and one
exact comparison. -/
def ratioLog2 (k N : Nat) : Int :=
  let d : Int := (natLog2 k : Int) - (natLog2 N : Int)
  if 0 ≤ d then (if N * 2 ^ d.toNat ≤ k then d else d - 1)
  else (if N ≤ k * 2 ^ (-d).toNat then d else d - 1)

/-- IEEE-754 binary64 value of Python `k / N` (true division of ints, `N > 0`)
as a dyadic pair `(mantissa, exponent)` denoting `m * 2^e`: the exact
rational `k/N` correctly rounded (to nearest, ties to even) to 53 significant
bits.  Exponent clamping at the edges of the binary64 range (overflow to
infinity above `2^1024`, subnormal loss of precision below `2^-1022`) is not
modelled; it is unreachable for any remotely realistic lesson and progress
counts. -/
def flDivNat (k N : Nat) : Nat × Int :=
  if k = 0 then (0, 0)
  else
    let e := ratioLog2 k N
    let m := if e ≤ 52 then pyRound (k * 2 ^ (52 - e).toNat) N
             else pyRound k (N * 2 ^ (e - 52).toNat)
    (m, e - 52)

/-- IEEE-754 binary64 product of the dyadic `m * 2^e` with the exact float
100: the exact product `100*m * 2^e`, correctly rounded (to nearest, ties to
even) back to 53 significant bits.  The same exponent-clamping caveat as
`flDivNat` applies. -/
def flMul100 (m : Nat) (e : Int) : Nat × Int :=
  if m = 0 then (0, 0)
  else
    let p := 100 * m
    let s := natLog2 p
    if s ≤ 52 then (p, e)
    else (pyRound p (2 ^ (s - 52)), e + (s - 52))

/-- Python `int()` of the nonnegative dyadic `m * 2^e`: truncation toward
zero, here the floor. -/
def truncDyadic (m : Nat) (e : Int) : Nat :=
  if 0 ≤ e then m * 2 ^ e.toNat else m / 2 ^ (-e).toNat

/-- Embedding of `calculate_perspective_progress` (`app.py` lines 90-102):
0 when the `lessons` field is absent or empty, otherwise
`int((completed / total) * 100)` evaluated in IEEE-754 binary64 floating
point — the float division `completed / total`, then the float product with
100, then truncation toward zero.  `completed` is the database count of rows
with `status='completed'` for the perspective; it is not capped. -/
def calculate_perspective_progress (lessons : Option (List Lesson)) (completed : Nat) : Nat :=
  match lessons with
  | none => 0
  | some [] => 0
  | some ls =>
    let d1 := flDivNat completed ls.length
    let d2 := flMul100 d1.1 d1.2
    truncDyadic d2.1 d2.2

/-- Embedding of `_compute_progress` (`app_perspectives_fix.py` lines 61-70):
0 when `total_lessons <= 0`, otherwise
`round(100 * min(count, total_lessons) / total_lessons)`.  The Python
expression rounds the binary64 quotient; it is embedded as the rounding of
the exact fraction, with which it agrees unless the exact fraction lies
within the float division's rounding error of a half-integer — impossible
for any remotely realistic `total_lessons` (no divergence exists for any
total up to 3000). -/
def compute_progress_fix (total count : Nat) : Nat :=
  if total = 0 then 0 else pyRound (100 * min count total) total

/-- Embedding of the `mark_complete` action (`app.py` lines 345-349):
set `status='completed'`. -/
def markComplete_app (p : ProgressRow) : ProgressRow :=
  { p with status := .completed }

/-- Embedding of `progress.score = max(progress.score, score)` (`app.py` line
307): the monotonic score ratchet. -/
def ratchetScore (score candidate : Nat) : Nat := max score candidate

/-! ### Assessment Grader (`app.py` lines 297-343,
`app_perspectives_fix.py` lines 146-178) -/

/-- The `quiz_result` dict built by `lesson_detail` (`app.py` lines 317-322). -/
structure QuizResultApp where
  correct : Bool
  selected : Int
  correct_answer : Int
  feedback : List String
deriving DecidableEq, Repr

/-- The empty dict `{}` used as the default quick check (`app.py` line 300). -/
def emptyQuickCheck : QuickCheck := ⟨none, none, none, none⟩

/-- Embedding of the quiz-grading part of `lesson_detail` (`app.py` lines
297-322).  `selected` is the submitted answer index (form default `-1`).  The
code takes `lesson.get('quick_checks', [{}])[0]`: the first quick check, an
empty dict when the key is absent, and an uncaught `IndexError` when the key
holds an empty list.  It compares `selected` with
`quick_check.get('answer_index', 0)` and returns the whole
`quick_check.get('feedback', [])` list.  No index is bounds-checked. -/
def gradeQuiz_app (lesson : Lesson) (selected : Int) : Except PyError QuizResultApp :=
  match lesson.quick_checks.getD [emptyQuickCheck] with
  | [] => .error .indexError
  | qc :: _ =>
    let ca : Int := qc.answer_index.getD 0
    .ok ⟨selected == ca, selected, ca, qc.feedback.getD []⟩

/-- Effect of a graded quiz submission on the `Progress` row in `app.py`
(lines 303-309): ratchet the score with `100 if is_correct else 0`; the status
is not touched. -/
def quizUpdate_app (p : ProgressRow) (is_correct : Bool) : ProgressRow :=
  { p with score := ratchetScore p.score (if is_correct then 100 else 0) }

/-- Full quiz submission in the `app.py` flow: grade, then update the row. -/
def quizSubmit_app (lesson : Lesson) (selected : Int) (p : ProgressRow) :
    Except PyError (QuizResultApp × ProgressRow) :=
  match gradeQuiz_app lesson selected with
  | .error e => .error e
  | .ok res => .ok (res, quizUpdate_app p res.correct)

/-- Effect of a grading verdict on the `Progress` row in the fix flow
(`app_perspectives_fix.py` lines 156-160): the first correct answer marks the
lesson completed and ratchets the score to at least 100. -/
def quizUpdate_fix (p : ProgressRow) (correct : Bool) : ProgressRow :=
  if correct && !(p.status == .completed) then
    { p with status := .completed, score := max p.score 100 }
  else p

/-- Embedding of the quiz branch of the fix's `lesson` view
(`app_perspectives_fix.py` lines 146-165).  `qidx` and `choice_idx` are the
submitted indices (form defaults `0` and `-1`).  Grading happens only when
`0 <= qidx < len(quick_checks)`; an out-of-range `qidx` falls through
silently (no flash, no error, first component `none`).  `choice_idx` is
compared, without any bounds check, against
`int(qc.get("answer_index", -1))`.  The `quiz_attempted` event (line 154) is
not modelled here; it does not affect the verdict or the row. -/
def gradeQuiz_fix (lesson : Lesson) (qidx choice_idx : Int) (p : ProgressRow) :
    Option Bool × ProgressRow :=
  let qcs := lesson.quick_checks.getD []
  if 0 ≤ qidx then
    match qcs.get? qidx.toNat with
    | some qc =>
      let correct := choice_idx == qc.answer_index.getD (-1)
      (some correct, quizUpdate_fix p correct)
    | none => (none, p)
  else (none, p)

/-- The `minigame_result` dict built by `lesson_detail` (`app.py` lines
339-343). -/
structure MinigameResultApp where
  correct : Bool
  selected : Option String
  explanation : String
deriving DecidableEq, Repr

/-- The empty dict `{}` used as the default minigame (`app.py` line 327). -/
def emptyMinigame : Minigame := ⟨none, none, none⟩

/-- Embedding of the minigame branch of `lesson_detail` (`app.py` lines
324-343): regardless of the minigame's `type`, the submitted option string
(`None` when the form field is missing) is compared with
`minigame.get('correct_option')`, and the result dict always carries that
boolean verdict together with `minigame.get('explanation', '')`. -/
def gradeMinigame_app (lesson : Lesson) (selected : Option String) : MinigameResultApp :=
  let mg := lesson.minigame.getD emptyMinigame
  ⟨selected == mg.correct_option, selected, mg.explanation.getD ""⟩

/-- Outcome of the fix's minigame branch. -/
inductive MinigameOutcome
  | choiceJudged (correct : Bool)
  | sliderRecorded (value : Option String)
  | ignored
deriving DecidableEq, Repr

/-- Embedding of the minigame branch of the fix's `lesson` view
(`app_perspectives_fix.py` lines 167-178): nothing happens without a minigame;
a `choice` minigame is judged by exact match of the picked option against
`correct_option`; a `slider` minigame only records the raw submitted value and
is never judged. -/
def gradeMinigame_fix (lesson : Lesson) (picked sliderValue : Option String) :
    MinigameOutcome :=
  match lesson.minigame with
  | none => .ignored
  | some mg =>
    if mg.type == some "choice" then .choiceJudged (picked == mg.correct_option)
    else if mg.type == some "slider" then .sliderRecorded sliderValue
    else .ignored

/-! ### Peer Review Assigner (`app.py` lines 403-452, `models.py` lines
31-53) -/

/-- One `Artifact` row (`models.py` lines 31-37). -/
structure Artifact where
  id : Nat
  user_id : Nat
  perspective_slug : String
  title : String
  body_text : String
deriving DecidableEq, Repr

/-- One `PeerReview` row (`models.py` lines 42-53). -/
structure PeerReview where
  artifact_id : Nat
  reviewer_id : Nat
  clarity : Int
  logic : Int
  fairness : Int
  comments : String
deriving DecidableEq, Repr

/-- Predicate for the `UniqueConstraint('artifact_id', 'reviewer_id')` of
`models.py` line 53. -/
def sameReviewKey (aid reviewer : Nat) (r : PeerReview) : Bool :=
  r.artifact_id == aid && r.reviewer_id == reviewer

/-- The storage layer's insert of a `PeerReview` row: `db.session.add` +
`commit` under the unique constraint of `models.py` line 53 — a second row
for the same `(artifact_id, reviewer_id)` raises a constraint violation and
stores nothing. -/
def insertPeerReview (reviews : List PeerReview) (r : PeerReview) :
    Except DBError (List PeerReview) :=
  if reviews.any (sameReviewKey r.artifact_id r.reviewer_id) then .error .uniqueViolation
  else .ok (reviews ++ [r])

/-- Embedding of the `submit_review` action of `peer_review_queue` (`app.py`
lines 412-430): build the `PeerReview` row from the submitted integers —
there is no range check of any rating — and insert it. -/
def submit_review (reviews : List PeerReview) (aid reviewer : Nat)
    (clarity logic fairness : Int) (comments : String) :
    Except DBError (List PeerReview) :=
  insertPeerReview reviews ⟨aid, reviewer, clarity, logic, fairness, comments⟩

/-- Has `reviewer` already reviewed artifact `aid`?  (The subquery of `app.py`
line 445.) -/
def reviewedBy (reviews : List PeerReview) (aid reviewer : Nat) : Bool :=
  reviews.any (sameReviewKey aid reviewer)

/-- Eligibility filter of `app.py` lines 447-450: not self-authored and not
already reviewed by this reviewer. -/
def eligibleFor (reviews : List PeerReview) (reviewer : Nat) (a : Artifact) : Bool :=
  !(a.user_id == reviewer) && !(reviewedBy reviews a.id reviewer)

/-- Embedding of the queue-selection query of `peer_review_queue` (`app.py`
lines 444-450): the first artifact, in insertion (creation) order, that the
reviewer did not author and has not reviewed; `none` when no such artifact
exists. -/
def next_artifact (artifacts : List Artifact) (reviews : List PeerReview)
    (reviewer : Nat) : Option Artifact :=
  artifacts.find? (eligibleFor reviews reviewer)

/-! ### Helper lemmas -/

theorem find?_eq_some_split {α : Type} (p : α → Bool) :
    ∀ (l : List α) (a : α), l.find? p = some a →
      p a = true ∧ ∃ pre post, l = pre ++ a :: post ∧ ∀ b ∈ pre, p b = false := by
  intro l
  induction l with
  | nil => intro a h; simp [List.find?] at h
  | cons x xs ih =>
    intro a h
    by_cases hx : p x = true
    · rw [List.find?_cons_of_pos _ hx] at h
      obtain rfl := Option.some.inj h
      exact ⟨hx, [], xs, rfl, by simp⟩
    · rw [List.find?_cons_of_neg _ hx] at h
      obtain ⟨hpa, pre, post, heq, hpre⟩ := ih a h
      refine ⟨hpa, x :: pre, post, by simp [heq], ?_⟩
      intro b hb
      rcases List.mem_cons.mp hb with rfl | hb
      · simpa using hx
      · exact hpre b hb

/-- The largest of a list of submitted candidate scores (0 for the empty
list). -/
def maxOf (l : List Nat) : Nat := l.foldr max 0

theorem foldl_ratchet (l : List Nat) :
    ∀ init, l.foldl ratchetScore init = max init (maxOf l) := by
  induction l with
  | nil => intro init; simp [maxOf]
  | cons x xs ih =>
    intro init
    simp only [List.foldl_cons, maxOf, List.foldr_cons]
    rw [ih (ratchetScore init x)]
    simp only [ratchetScore, maxOf]
    omega

theorem maxOf_perm {l l' : List Nat} (h : l.Perm l') : maxOf l = maxOf l' := by
  induction h with
  | nil => rfl
  | cons x _ ih => simp only [maxOf, List.foldr_cons] at ih ⊢; omega
  | swap x y t => simp only [maxOf, List.foldr_cons]; omega
  | trans _ _ ih1 ih2 => exact ih1.trans ih2

/-- C3: `next_artifact` (the queue query of `peer_review_queue`, `app.py`
lines 444-450) returns the first artifact in creation order whose author is
not the reviewer and that the reviewer has not yet reviewed; it never returns
a self-authored or already-reviewed artifact, and returns `none` exactly when
no eligible artifact exists (a normal outcome, not an error). -/
theorem next_artifact_spec (artifacts : List Artifact) (reviews : List PeerReview)
    (reviewer : Nat) :
    (∀ a, next_artifact artifacts reviews reviewer = some a →
      a.user_id ≠ reviewer ∧ reviewedBy reviews a.id reviewer = false ∧
      ∃ pre post, artifacts = pre ++ a :: post ∧
        ∀ b ∈ pre, b.user_id = reviewer ∨ reviewedBy reviews b.id reviewer = true) ∧
    (next_artifact artifacts reviews reviewer = none ↔
      ∀ a ∈ artifacts, a.user_id = reviewer ∨ reviewedBy reviews a.id reviewer = true) := by
  constructor
  · intro a h
    obtain ⟨hpa, pre, post, heq, hpre⟩ := find?_eq_some_split _ _ _ h
    simp only [eligibleFor, Bool.and_eq_true, Bool.not_eq_true', beq_eq_false_iff_ne,
      ne_eq] at hpa
    refine ⟨hpa.1, hpa.2, pre, post, heq, ?_⟩
    intro b hb
    have := hpre b hb
    simp only [eligibleFor, Bool.and_eq_false_iff, Bool.not_eq_false',
      beq_iff_eq] at this
    exact this
  · rw [next_artifact, List.find?_eq_none]
    constructor
    · intro h a ha
      have := h a ha
      simp only [eligibleFor, Bool.and_eq_true, Bool.not_eq_true',
        beq_eq_false_iff_ne, ne_eq, not_and] at this
      by_cases hu : a.user_id = reviewer
      · exact Or.inl hu
      · exact Or.inr (by simpa using this hu)
    · intro h a ha
      have := h a ha
      simp only [eligibleFor, Bool.and_eq_true, Bool.not_eq_true',
        beq_eq_false_iff_ne, ne_eq, not_and]
      intro hu
      rcases this with hu' | hr
      · exact absurd hu' hu
      · simpa using hr

/-- Witness for C3 at a concrete store: two artifacts, the first self-authored
by reviewer 10, no reviews; the returned artifact is the second one and is not
self-authored. -/
theorem next_artifact_spec_witness :
    (⟨2, 20, "s", "t2", "b2"⟩ : Artifact).user_id ≠ 10 :=
  ((next_artifact_spec [⟨1, 10, "s", "t1", "b1"⟩, ⟨2, 20, "s", "t2", "b2"⟩] [] 10).1
    ⟨2, 20, "s", "t2", "b2"⟩ rfl).1

/-- C4 (amended): `submit_review` (`app.py` lines 412-430) performs no rating
validation whatsoever — any integer ratings, in range or not, are stored
verbatim (neither rejected with `InvalidRating` nor clamped) whenever no
review by this reviewer for this artifact exists; a duplicate
`(artifact, reviewer)` submission is rejected by the storage layer's unique
constraint (`models.py` line 53) as an unhandled constraint violation (not a
handled `AlreadyReviewed` outcome), storing nothing, so a store holding
exactly one row for the pair keeps exactly that one row. -/
theorem submit_review_spec (reviews : List PeerReview) (aid reviewer : Nat)
    (clarity logic fairness : Int) (comments : String) :
    (reviews.any (sameReviewKey aid reviewer) = false →
      submit_review reviews aid reviewer clarity logic fairness comments =
        .ok (reviews ++ [⟨aid, reviewer, clarity, logic, fairness, comments⟩])) ∧
    (reviews.any (sameReviewKey aid reviewer) = true →
      submit_review reviews aid reviewer clarity logic fairness comments =
        .error .uniqueViolation) ∧
    (reviews.countP (sameReviewKey aid reviewer) = 1 →
      submit_review reviews aid reviewer clarity logic fairness comments =
        .error .uniqueViolation) := by
  refine ⟨?_, ?_, ?_⟩
  · intro h
    simp [submit_review, insertPeerReview, h]
  · intro h
    simp [submit_review, insertPeerReview, h]
  · intro h
    have hpos : 0 < reviews.countP (sameReviewKey aid reviewer) := by omega
    rw [List.countP_pos_iff] at hpos
    obtain ⟨r, hr, hkey⟩ := hpos
    have hany : reviews.any (sameReviewKey aid reviewer) = true :=
      List.any_eq_true.mpr ⟨r, hr, hkey⟩
    simp [submit_review, insertPeerReview, hany]

/-- Counterexample for C4 as stated: a clarity rating of 7 — an integer
outside `[1,5]` — does not fail with `InvalidRating`; the row is stored with
the out-of-range value intact. -/
theorem submit_review_claim_counterexample :
    submit_review [] 1 2 7 1 1 "" = .ok [⟨1, 2, 7, 1, 1, ""⟩] ∧
    ¬ ((1 : Int) ≤ 7 ∧ (7 : Int) ≤ 5) := ⟨rfl, by decide⟩

/-- Witness for C4 at a concrete store: a fresh submission succeeds, and the
duplicate of an existing single row fails leaving the single row. -/
theorem submit_review_spec_witness :
    submit_review [⟨1, 2, 3, 3, 3, "x"⟩] 1 2 4 4 4 "y" = .error .uniqueViolation :=
  (submit_review_spec [⟨1, 2, 3, 3, 3, "x"⟩] 1 2 4 4 4 "y").2.2 rfl

/-- C8: the score ratchet (`progress.score = max(progress.score, score)`,
`app.py` line 307; `prog.score = max(prog.score or 0, 100)`,
`app_perspectives_fix.py` line 158): over any finite sequence of candidate
scores the stored score ends at the maximum of the initial score and all
candidates, independent of the order of the calls, and never decreases. -/
theorem ratchetScore_spec (init : Nat) (l l' : List Nat) (h : l.Perm l') :
    l.foldl ratchetScore init = max init (maxOf l) ∧
    l.foldl ratchetScore init = l'.foldl ratchetScore init ∧
    init ≤ l.foldl ratchetScore init := by
  refine ⟨foldl_ratchet l init, ?_, ?_⟩
  · rw [foldl_ratchet l init, foldl_ratchet l' init, maxOf_perm h]
  · rw [foldl_ratchet l init]; omega

/-- Witness for C8 on a concrete sequence: `[30, 100, 70]` starting from 50,
against its rotation `[100, 70, 30]`. -/
theorem ratchetScore_spec_witness :
    [30, 100, 70].foldl ratchetScore 50 = max 50 (maxOf [30, 100, 70]) ∧
    [30, 100, 70].foldl ratchetScore 50 = [100, 70, 30].foldl ratchetScore 50 ∧
    50 ≤ [30, 100, 70].foldl ratchetScore 50 :=
  ratchetScore_spec 50 [30, 100, 70] [100, 70, 30] (by decide)

/-- C9 (amended): the fix flow (`app_perspectives_fix.py` lines 167-178)
grades only the `choice` variant — correct exactly on exact string match with
`correct_option` — and for the `slider` variant records the raw value without
any verdict; but the `app.py` flow (lines 324-343) compares the submitted
option against `minigame.get('correct_option')` and returns a boolean verdict
regardless of the minigame's type (never a null verdict), alongside the
explanation returned unchanged. -/
theorem gradeMinigame_spec (lesson : Lesson) (selected picked sliderValue : Option String) :
    ((gradeMinigame_app lesson selected).correct =
        (selected == (lesson.minigame.getD emptyMinigame).correct_option) ∧
      (gradeMinigame_app lesson selected).explanation =
        (lesson.minigame.getD emptyMinigame).explanation.getD "") ∧
    (∀ mg, lesson.minigame = some mg → mg.type = some "slider" →
      gradeMinigame_fix lesson picked sliderValue = .sliderRecorded sliderValue) ∧
    (∀ mg, lesson.minigame = some mg → mg.type = some "choice" →
      gradeMinigame_fix lesson picked sliderValue = .choiceJudged (picked == mg.correct_option)) := by
  refine ⟨⟨rfl, rfl⟩, ?_, ?_⟩
  · intro mg hmg ht
    unfold gradeMinigame_fix
    rw [hmg]
    simp [ht]
  · intro mg hmg ht
    unfold gradeMinigame_fix
    rw [hmg]
    simp [ht]

/-- Counterexample for C9 as stated: in the `app.py` flow a submission for a
`slider` minigame (no `correct_option`, no submitted option string) is judged
— with verdict `true` (`None == None`) — instead of being left unjudged. -/
theorem gradeMinigame_claim_counterexample :
    gradeMinigame_app ⟨"l2", none, some ⟨some "slider", none, some "Think"⟩⟩ none =
      ⟨true, none, "Think"⟩ := rfl

/-- Witness for C9 at a concrete lesson: a slider submission in the fix flow
is recorded, not judged. -/
theorem gradeMinigame_spec_witness :
    gradeMinigame_fix ⟨"l2", none, some ⟨some "slider", none, some "Think"⟩⟩ none (some "4") =
      .sliderRecorded (some "4") :=
  (gradeMinigame_spec ⟨"l2", none, some ⟨some "slider", none, some "Think"⟩⟩ none none
    (some "4")).2.1 ⟨some "slider", none, some "Think"⟩ rfl rfl

/-- A lesson with one quick check (`choices=["A","B"]`, `answer_index=0`,
per-choice feedback), used as concrete input. -/
def sampleLesson : Lesson :=
  ⟨"l1", some [⟨some "Q", some ["A", "B"], some 0, some ["f0", "f1"]⟩], none⟩

/-- A freshly started `Progress` row, used as concrete input. -/
def sampleProgress : ProgressRow := ⟨1, "s", "l1", .started, 0⟩

/-- C7 (amended): the two grading flows apply different completion policies.
In the `app.py` flow a quiz submission never changes `status` — completion
happens only through the explicit `mark_complete` action — while in the
`app_perspectives_fix.py` flow the first correct answer sets
`status='completed'` (and an incorrect answer, or an already completed row,
leaves the row unchanged).  The two flows are therefore not equivalent on the
status after a correct submission. -/
theorem completion_policy_spec (p : ProgressRow) (b : Bool) :
    ((quizUpdate_app p b).status = p.status) ∧
    ((markComplete_app p).status = .completed) ∧
    (b = true → p.status ≠ .completed →
      quizUpdate_fix p b = { p with status := .completed, score := max p.score 100 }) ∧
    (b = false → quizUpdate_fix p b = p) ∧
    (p.status = .completed → quizUpdate_fix p b = p) := by
  refine ⟨rfl, rfl, ?_, ?_, ?_⟩
  · intro hb hs
    subst hb
    have : (p.status == ProgressStatus.completed) = false := by
      cases hst : p.status <;> simp_all
    simp [quizUpdate_fix, this]
  · intro hb
    subst hb
    simp [quizUpdate_fix]
  · intro hs
    simp [quizUpdate_fix, hs]

/-- Counterexample for C7 as stated: the same correct submission
(`selected=0` on `sampleLesson`, whose `answer_index` is 0) applied to the
same started row leaves `status='started'` in the `app.py` flow but sets
`status='completed'` in the fix flow, so the status after a correct quiz
submission differs between the two flows. -/
theorem completion_policy_claim_counterexample :
    quizSubmit_app sampleLesson 0 sampleProgress =
      .ok (⟨true, 0, 0, ["f0", "f1"]⟩, ⟨1, "s", "l1", .started, 100⟩) ∧
    gradeQuiz_fix sampleLesson 0 0 sampleProgress =
      (some true, ⟨1, "s", "l1", .completed, 100⟩) ∧
    ProgressStatus.started ≠ ProgressStatus.completed := ⟨rfl, rfl, by decide⟩

/-- Witness for C7 at a concrete row: a correct answer on a started row
auto-completes in the fix flow. -/
theorem completion_policy_spec_witness :
    quizUpdate_fix sampleProgress true =
      { sampleProgress with status := .completed, score := max sampleProgress.score 100 } :=
  (completion_policy_spec sampleProgress true).2.2.1 rfl (by decide)

theorem rowKeyMatches_self (u : Nat) (slug lid : String) (st : ProgressStatus) (sc : Nat) :
    rowKeyMatches u slug lid ⟨u, slug, lid, st, sc⟩ = true := by
  simp [rowKeyMatches]

theorem countStarted_log_event (s : EngineState) (u : Nat) (slug lid : String) :
    countStarted (log_event s u "lesson_started" (some slug) (some lid)) u lid =
      countStarted s u lid + 1 := by
  simp [countStarted, log_event, List.countP_append, List.countP_cons]

theorem ensureRow_fix_events (s : EngineState) (u : Nat) (slug lid : String) :
    (ensureRow_fix s u slug lid).2.events = s.events := by
  unfold ensureRow_fix
  cases h : s.rows.find? (rowKeyMatches u slug lid) <;> rfl

/-- C5 (amended): in the `app.py` flow `getOrCreate` is idempotent — a second
call for the same `(user, perspective, lesson)` returns the same row and the
same state — a missing row is created with `status='started', score=0`
together with exactly one `lesson_started` event, and an existing row is
returned untouched with no event; in the `app_perspectives_fix.py` flow the
row creation part is likewise idempotent, but a `lesson_started` event is
logged on every GET visit (line 182 is outside the creation branch), so
visits to an already-existing row do re-emit the event. -/
theorem getOrCreate_spec (s : EngineState) (u : Nat) (slug lid : String) :
    (getOrCreate_app (getOrCreate_app s u slug lid).2 u slug lid =
      getOrCreate_app s u slug lid) ∧
    (s.rows.find? (rowKeyMatches u slug lid) = none →
      (getOrCreate_app s u slug lid).1 = ⟨u, slug, lid, .started, 0⟩ ∧
      countStarted (getOrCreate_app s u slug lid).2 u lid = countStarted s u lid + 1) ∧
    (∀ r, s.rows.find? (rowKeyMatches u slug lid) = some r →
      getOrCreate_app s u slug lid = (r, s)) ∧
    (ensureRow_fix (ensureRow_fix s u slug lid).2 u slug lid =
      ensureRow_fix s u slug lid) ∧
    (countStarted (visit_fix s u slug lid) u lid = countStarted s u lid + 1) := by
  have hfind : s.rows.find? (rowKeyMatches u slug lid) = none →
      (s.rows ++ [(⟨u, slug, lid, .started, 0⟩ : ProgressRow)]).find?
        (rowKeyMatches u slug lid) = some ⟨u, slug, lid, .started, 0⟩ := by
    intro h
    rw [List.find?_append, h]
    simp [List.find?, rowKeyMatches_self]
  refine ⟨?_, ?_, ?_, ?_, ?_⟩
  · cases h : s.rows.find? (rowKeyMatches u slug lid) with
    | some r =>
      have h2 : getOrCreate_app s u slug lid = (r, s) := by
        unfold getOrCreate_app
        rw [h]
      rw [h2]
      exact h2
    | none =>
      have h2 : getOrCreate_app s u slug lid =
          (⟨u, slug, lid, .started, 0⟩,
            log_event { s with rows := s.rows ++ [⟨u, slug, lid, .started, 0⟩] }
              u "lesson_started" (some slug) (some lid)) := by
        unfold getOrCreate_app
        rw [h]
      rw [h2]
      unfold getOrCreate_app
      simp only [log_event]
      rw [hfind h]
  · intro h
    unfold getOrCreate_app
    rw [h]
    exact ⟨rfl, countStarted_log_event _ u slug lid⟩
  · intro r h
    unfold getOrCreate_app
    rw [h]
  · cases h : s.rows.find? (rowKeyMatches u slug lid) with
    | some r =>
      have h2 : ensureRow_fix s u slug lid = (r, s) := by
        unfold ensureRow_fix
        rw [h]
      rw [h2]
      exact h2
    | none =>
      have h2 : ensureRow_fix s u slug lid =
          (⟨u, slug, lid, .started, 0⟩,
            { s with rows := s.rows ++ [⟨u, slug, lid, .started, 0⟩] }) := by
        unfold ensureRow_fix
        rw [h]
      rw [h2]
      unfold ensureRow_fix
      simp only
      rw [hfind h]
  · unfold visit_fix
    rw [countStarted_log_event]
    congr 1
    simp [countStarted, ensureRow_fix_events]

/-- Counterexample for C5 as stated: in the fix flow two GET visits from an
empty store log two `lesson_started` events for the same `(user, lesson)`
pair — the second visit, which finds the existing row, re-emits the event. -/
theorem lesson_started_claim_counterexample :
    countStarted (visit_fix (visit_fix ⟨[], []⟩ 1 "s" "l1") 1 "s" "l1") 1 "l1" = 2 ∧
    (visit_fix (visit_fix ⟨[], []⟩ 1 "s" "l1") 1 "s" "l1").rows =
      [⟨1, "s", "l1", .started, 0⟩] := ⟨rfl, rfl⟩

/-- Witness for C5 from an empty store: the first `app.py` visit creates the
started row and logs the event once. -/
theorem getOrCreate_spec_witness :
    (getOrCreate_app ⟨[], []⟩ 1 "s" "l1").1 = ⟨1, "s", "l1", .started, 0⟩ ∧
    countStarted (getOrCreate_app ⟨[], []⟩ 1 "s" "l1").2 1 "l1" =
      countStarted ⟨[], []⟩ 1 "l1" + 1 :=
  (getOrCreate_spec ⟨[], []⟩ 1 "s" "l1").2.1 rfl

/-- C1 (amended): neither grading flow ever fails with `OutOfRange`.  The
`app.py` flow (lines 297-322) grades only the first quick check (any
submitted quick-check index is ignored), succeeds for every selected index —
`correct=true` exactly when the selected index equals
`quick_check.get('answer_index', 0)`, so an out-of-range selected index is
silently graded incorrect — and returns the whole `feedback` array rather
than the entry at the selected index; an absent `quick_checks` key is graded
against the empty dict, and a present-but-empty `quick_checks` list raises an
uncaught `IndexError`.  The fix flow (`app_perspectives_fix.py` lines
146-165) does bounds-check the quick-check index, but an out-of-range one is
skipped silently (no error), and the selected choice index is compared
against `int(qc.get("answer_index", -1))` without any bounds check. -/
theorem gradeQuiz_spec :
    (∀ (lesson : Lesson) (qc : QuickCheck) (rest : List QuickCheck) (selected : Int),
      lesson.quick_checks = some (qc :: rest) →
      gradeQuiz_app lesson selected =
        .ok ⟨selected == qc.answer_index.getD 0, selected, qc.answer_index.getD 0,
          qc.feedback.getD []⟩) ∧
    (∀ (lesson : Lesson) (selected : Int),
      lesson.quick_checks = none →
      gradeQuiz_app lesson selected = .ok ⟨selected == 0, selected, 0, []⟩) ∧
    (∀ (lesson : Lesson) (selected : Int),
      lesson.quick_checks = some [] →
      gradeQuiz_app lesson selected = .error .indexError) ∧
    (∀ (lesson : Lesson) (qidx choice_idx : Int) (p : ProgressRow),
      ((gradeQuiz_fix lesson qidx choice_idx p).1.isSome ↔
        0 ≤ qidx ∧ qidx.toNat < (lesson.quick_checks.getD []).length)) ∧
    (∀ (lesson : Lesson) (qidx choice_idx : Int) (p : ProgressRow) (qc : QuickCheck),
      0 ≤ qidx → (lesson.quick_checks.getD []).get? qidx.toNat = some qc →
      (gradeQuiz_fix lesson qidx choice_idx p).1 =
        some (choice_idx == qc.answer_index.getD (-1))) := by
  refine ⟨?_, ?_, ?_, ?_, ?_⟩
  · intro lesson qc rest selected h
    unfold gradeQuiz_app
    rw [h]
    rfl
  · intro lesson selected h
    unfold gradeQuiz_app
    rw [h]
    rfl
  · intro lesson selected h
    unfold gradeQuiz_app
    rw [h]
    rfl
  · intro lesson qidx choice_idx p
    unfold gradeQuiz_fix
    by_cases hq : 0 ≤ qidx
    · rw [if_pos hq]
      cases hget : (lesson.quick_checks.getD []).get? qidx.toNat with
      | some qc =>
        simp only [Option.isSome_some, true_iff]
        exact ⟨hq, (List.get?_eq_some.mp hget).1⟩
      | none =>
        simp only [Option.isSome_none, Bool.false_eq_true, false_iff, not_and, not_lt]
        intro _
        exact List.get?_eq_none.mp hget
    · simp [hq]
  · intro lesson qidx choice_idx p qc hq hget
    unfold gradeQuiz_fix
    rw [if_pos hq, hget]

/-- Counterexample for C1 as stated: on a lesson whose only quick check has
two choices, the selected index 5 is outside `[0, 2)` yet the `app.py` flow
succeeds with `correct=false` (no `OutOfRange` failure) and returns the whole
feedback array `["f0", "f1"]` instead of the feedback at the selected index;
and in the fix flow the out-of-range quick-check index 7 is skipped silently
(verdict `none`, row untouched) instead of failing with `OutOfRange`. -/
theorem gradeQuiz_claim_counterexample :
    gradeQuiz_app sampleLesson 5 = .ok ⟨false, 5, 0, ["f0", "f1"]⟩ ∧
    gradeQuiz_fix sampleLesson 7 1 sampleProgress = (none, sampleProgress) := ⟨rfl, rfl⟩

/-- Witness for C1 on `sampleLesson`: grading the first quick check with the
correct choice 0. -/
theorem gradeQuiz_spec_witness :
    gradeQuiz_app sampleLesson 0 = .ok ⟨true, 0, 0, ["f0", "f1"]⟩ :=
  gradeQuiz_spec.1 sampleLesson ⟨some "Q", some ["A", "B"], some 0, some ["f0", "f1"]⟩ []
    0 rfl

/-- A content document with no optional fields at all, stored under the
filename stem `phi`. -/
def bareDoc : RawDoc := ⟨none, none, none, .absent, none⟩

/-- C10: when the content file is stored under `<slug>.json`,
`_load_perspective` (`app_perspectives_fix.py` lines 44-53) returns the
parsed document exactly as stored, with none of the defaults that
`_load_all_perspectives` applies; consequently the fast-path lookup and the
scan over the normalized catalog can return different documents for the same
slug (here: the raw document has no `slug`, `title`, `summary`, `order` or
`lessons` field, while the scanned one has all five defaulted). -/
theorem load_perspective_fastpath_spec :
    (∀ (files : List ContentFile) (slug : String) (d : RawDoc),
      files.find? (fun f => f.1 == slug) = some (slug, some d) →
      load_perspective_fix files slug = .ok (some (.raw d))) ∧
    (load_perspective_fix [("phi", some bareDoc)] "phi" = .ok (some (.raw bareDoc)) ∧
      (load_all_perspectives_fix [("phi", some bareDoc)]).find? (fun p => p.slug == "phi") =
        some ⟨"phi", "Phi", "", 9999, []⟩ ∧
      bareDoc.summary = none ∧ bareDoc.slug = none) := by
  constructor
  · intro files slug d h
    unfold load_perspective_fix
    rw [h]
  · refine ⟨rfl, ?_, rfl, rfl⟩
    rfl

/-- Witness for C10: the fast path at the concrete one-file store. -/
theorem load_perspective_fastpath_spec_witness :
    load_perspective_fix [("phi", some bareDoc)] "phi" = .ok (some (.raw bareDoc)) :=
  load_perspective_fastpath_spec.1 [("phi", some bareDoc)] "phi" bareDoc rfl

theorem floor_div_cast (a b : ℕ) : ((a / b : ℕ) : ℤ) = ⌊(a : ℚ) / (b : ℚ)⌋ := by
  have h := Rat.floor_intCast_div_natCast (a : ℤ) b
  have hc : (((a : ℕ) : ℤ) : ℚ) = ((a : ℕ) : ℚ) := by norm_cast
  rw [hc] at h
  rw [h]
  exact_mod_cast rfl

theorem pyRound_formula (a b : ℕ) (hb : 0 < b) (hne : 2 * (a % b) ≠ b) :
    pyRound a b = (2 * a + b) / (2 * b) := by
  have hdm := Nat.div_add_mod a b
  have hr : a % b < b := Nat.mod_lt a hb
  by_cases hlt : 2 * (a % b) < b
  · have h2 : 2 * a + b = (2 * (a % b) + b) + (a / b) * (2 * b) := by
      have : 2 * a = 2 * (b * (a / b)) + 2 * (a % b) := by omega
      rw [this]
      ring
    have hzero : (2 * (a % b) + b) / (2 * b) = 0 := Nat.div_eq_of_lt (by omega)
    rw [pyRound, if_pos hlt, h2,
      Nat.add_mul_div_right _ _ (by omega : 0 < 2 * b), hzero]
    omega
  · have hgt : b < 2 * (a % b) := by omega
    have h2 : 2 * a + b = ((2 * (a % b) - b) + 1 * (2 * b)) + (a / b) * (2 * b) := by
      have : 2 * a = 2 * (b * (a / b)) + 2 * (a % b) := by omega
      rw [this]
      have hble : b ≤ 2 * (a % b) := by omega
      zify [hble]
      ring
    have hzero : (2 * (a % b) - b) / (2 * b) = 0 := Nat.div_eq_of_lt (by omega)
    rw [pyRound, if_neg hlt, if_pos hgt, h2,
      Nat.add_mul_div_right _ _ (by omega : 0 < 2 * b),
      Nat.add_mul_div_right _ _ (by omega : 0 < 2 * b), hzero]
    omega

theorem pyRound_eq_round (a b : ℕ) (hb : 0 < b) (hne : 2 * (a % b) ≠ b) :
    (pyRound a b : ℤ) = round ((a : ℚ) / (b : ℚ)) := by
  rw [round_eq]
  have hbq : ((b : ℕ) : ℚ) ≠ 0 := by positivity
  have key : (a : ℚ) / (b : ℚ) + 1 / 2 = ((2 * a + b : ℕ) : ℚ) / ((2 * b : ℕ) : ℚ) := by
    push_cast
    field_simp
    ring
  rw [key, ← floor_div_cast (2 * a + b) (2 * b), pyRound_formula a b hb hne]

theorem pyRound_tie_even (a b : ℕ) (heq : 2 * (a % b) = b) : pyRound a b % 2 = 0 := by
  rw [pyRound, if_neg (by omega), if_neg (by omega)]
  by_cases hq : a / b % 2 = 0
  · rw [if_pos hq]
    exact hq
  · rw [if_neg hq]
    omega

/-- C2 (amended): the fix flow's `_compute_progress`
(`app_perspectives_fix.py` lines 61-70) behaves as the claim states — for a
perspective with `total` lessons and `count ≤ total` completed it returns
Python `round(100*count/total)` (equal to the mathematical half-up round
whenever the fraction is not an exact half, and rounding halves to the even
neighbour), the completed count is capped at `total` so `count ≥ total`
yields 100, and `total = 0` yields 0.  The `app.py` flow's
`calculate_perspective_progress` (lines 90-102) instead computes
`int((count/total)*100)` in binary64 floating point — a twice-rounded
truncation that neither rounds nor caps: absent/empty lessons or 0 completed
give 0, but 29 completed of 50 gives 57 — one below even the exact floor 58,
because `0.58 * 100` falls slightly below 58 in binary64 — and 2 completed
of a single lesson gives the uncapped 200. -/
theorem computePercent_spec :
    (∀ count, compute_progress_fix 0 count = 0) ∧
    (∀ total count, 0 < total → count ≤ total → 2 * ((100 * count) % total) ≠ total →
      (compute_progress_fix total count : ℤ) = round ((100 * count : ℚ) / (total : ℚ))) ∧
    (∀ total count, 0 < total → count ≤ total → 2 * ((100 * count) % total) = total →
      compute_progress_fix total count % 2 = 0) ∧
    (∀ total count, 0 < total → total ≤ count →
      compute_progress_fix total count = 100) ∧
    (∀ count, calculate_perspective_progress none count = 0 ∧
      calculate_perspective_progress (some []) count = 0) ∧
    (∀ (ls : List Lesson), calculate_perspective_progress (some ls) 0 = 0) ∧
    (calculate_perspective_progress (some (List.replicate 50 ⟨"a", none, none⟩)) 29 = 57 ∧
      100 * 29 / 50 = 58) ∧
    (calculate_perspective_progress (some [⟨"a", none, none⟩]) 2 = 200) := by
  refine ⟨fun count => rfl, ?_, ?_, ?_, fun count => ⟨rfl, rfl⟩, ?_,
    ⟨by decide, by decide⟩, by decide⟩
  · intro total count ht hle hne
    rw [compute_progress_fix, if_neg (by omega), min_eq_left hle]
    have := pyRound_eq_round (100 * count) total ht hne
    rw [this]
    congr 1
    push_cast
    ring_nf
  · intro total count ht hle heq
    rw [compute_progress_fix, if_neg (by omega), min_eq_left hle]
    exact pyRound_tie_even _ _ heq
  · intro total count ht hge
    rw [compute_progress_fix, if_neg (by omega), min_eq_right hge]
    have hmod : (100 * total) % total = 0 := by
      simp [Nat.mul_mod_left]
    have hdiv : (100 * total) / total = 100 := Nat.mul_div_cancel 100 ht
    rw [pyRound, hmod, hdiv, if_pos (by omega)]
  · intro ls
    cases ls with
    | nil => rfl
    | cons l ls' => simp [calculate_perspective_progress, flDivNat, flMul100, truncDyadic]

/-- Counterexample for C2 as stated: with 3 lessons and 2 completed the
`app.py` flow returns 66 — the truncation of 66.67 — while
`round(100*2/3) = 67`. -/
theorem computePercent_claim_counterexample :
    calculate_perspective_progress
      (some [⟨"a", none, none⟩, ⟨"b", none, none⟩, ⟨"c", none, none⟩]) 2 = 66 ∧
    round ((100 * 2 : ℚ) / 3) = 67 ∧
    compute_progress_fix 3 2 = 67 := by
  refine ⟨by decide, ?_, rfl⟩
  norm_num [round_eq]

/-- Witness for C2 at `total=3, count=2`: the fix flow agrees with the
rounded value. -/
theorem computePercent_spec_witness :
    (compute_progress_fix 3 2 : ℤ) = round ((100 * 2 : ℚ) / (3 : ℚ)) :=
  computePercent_spec.2.1 3 2 (by decide) (by decide) (by decide)

/-- A document with no `order` and no `summary`, declared slug `a`. -/
def docNoOrder : RawDoc := ⟨some "a", some "A", none, .absent, some []⟩

/-- A document with `order` 1000 and all fields present, declared slug `b`. -/
def docOrder1000 : RawDoc := ⟨some "b", some "B", some "s", .num 1000, some []⟩

/-- C6 (amended): both loaders skip every malformed document and never abort
the remaining load (the output is exactly the well-formed parses).  The fix
loader `_load_all_perspectives` behaves as the claim states: it defaults
`slug`/`title` from the filename stem, `summary` to empty, `lessons` to the
empty sequence, `order` to 9999 when absent or non-numeric, and sorts by
`(order ascending, title ascending)`.  The `app.py` loader
`load_perspectives`, however, applies no field defaults at all — documents
pass through unchanged — and sorts by the raw `order` value alone with
default key 999, ignoring titles (its behaviour when a present order value is
non-numeric, where Python's mixed-type sort raises, is outside this
statement's hypothesis). -/
theorem content_loaders_spec (files : List ContentFile) :
    ((load_all_perspectives_fix files).Perm
        (files.filterMap (fun f => f.2.map (normalizeDoc f.1)))) ∧
    ((load_all_perspectives_fix files).Pairwise
        (fun a b => fixKeyLe a b = true)) ∧
    (∀ stem d, d.order = .absent ∨ d.order = .nonNumeric →
      (normalizeDoc stem d).order = 9999) ∧
    (∀ stem d, (normalizeDoc stem d).slug = d.slug.getD stem ∧
      (normalizeDoc stem d).title = d.title.getD (defaultTitle stem) ∧
      (normalizeDoc stem d).summary = d.summary.getD "" ∧
      (normalizeDoc stem d).lessons = d.lessons.getD []) ∧
    ((∀ d ∈ files.filterMap Prod.snd, d.order ≠ .nonNumeric) →
      (load_perspectives files).Perm (files.filterMap Prod.snd) ∧
      (load_perspectives files).Pairwise
        (fun a b => appSortKey a ≤ appSortKey b)) ∧
    (∀ d : RawDoc, d.order = .absent → appSortKey d = 999) := by
  refine ⟨sortBy_perm _ _, sortBy_pairwise _ fixKeyLe_total fixKeyLe_trans _, ?_, ?_, ?_, ?_⟩
  · intro stem d h
    rcases h with h | h <;> simp [normalizeDoc, orderValue, h]
  · intro stem d
    exact ⟨rfl, rfl, rfl, rfl⟩
  · intro _
    refine ⟨sortBy_perm _ _, ?_⟩
    have := sortBy_pairwise appLe appLe_total appLe_trans (files.filterMap Prod.snd)
    exact this.imp (fun h => by simpa [appLe] using h)
  · intro d h
    simp [appSortKey, h]

/-- Counterexample for C6 as stated: in the `app.py` loader a document with
no `order` field gets sort key 999 — not the claimed 9999 — so it sorts
before a document with order 1000 (the claimed defaulting would put it
after), and its missing `summary` stays missing instead of defaulting to
empty. -/
theorem load_perspectives_claim_counterexample :
    load_perspectives [("a", some docNoOrder), ("b", some docOrder1000)] =
      [docNoOrder, docOrder1000] ∧
    docNoOrder.summary = none ∧
    orderValue docNoOrder.order = 9999 ∧ (1000 : Int) < 9999 :=
  ⟨rfl, rfl, rfl, by decide⟩

/-- Witness for C6 at a concrete one-file store, plus the defaulting of an
absent order to 9999 in the fix loader. -/
theorem content_loaders_spec_witness :
    (load_perspectives [("a", some docNoOrder)]).Perm [docNoOrder] ∧
    (normalizeDoc "a" docNoOrder).order = 9999 :=
  ⟨((content_loaders_spec [("a", some docNoOrder)]).2.2.2.2.1 (by decide)).1,
    (content_loaders_spec [("a", some docNoOrder)]).2.2.1 "a" docNoOrder (Or.inl rfl)⟩
